import Mathlib

/-!
Verification of the message-lane primitives of `bridges/primitives/messages/src/lib.rs`
(bridge message lane bookkeeping: nonce ranges, inbound/outbound lane records,
reward calculation and size policy).

Machine integers of the source (`u64` nonces, `u32` sizes, `usize` lengths) are
embedded as `Nat` together with the explicit bounds `U64_MAX`, `U32_MAX`,
`USIZE_MAX`; operations that can overflow in the source are made explicit: an
unchecked Rust `+`/`-` that can leave the 64-bit range is modelled by a checked
operation returning `Option` (where `none` marks an overflow, which in the
source is a panic under debug assertions and a silent wrap otherwise), while
operations the source itself guards (saturating length, checked size hints) are
translated with their guards.
-/

namespace BpMessages

/-- Modulus of the 64-bit unsigned integers used for message nonces. -/
def U64_MOD : Nat := 2 ^ 64

/-- Largest value of a `u64` (`MessageNonce` is `u64`). -/
def U64_MAX : Nat := U64_MOD - 1

/-- Largest value of a `u32`. -/
def U32_MAX : Nat := 2 ^ 32 - 1

/-- Largest value of a `usize`; the chains targeted here are 64-bit, so
`usize` is modelled as a 64-bit integer. -/
def USIZE_MAX : Nat := U64_MAX

/-- Rust `RangeInclusive<u64>` as used for nonce ranges: the bounds
`start ..= end`; the `end` bound is named `stop` because `end` is a Lean
keyword. -/
structure RangeInclusive where
  start : Nat
  stop : Nat
deriving DecidableEq, Repr

/-- `RangeInclusive::contains`: `start <= n && n <= end`. -/
def RangeInclusive.containsNonce (r : RangeInclusive) (n : Nat) : Bool :=
  decide (r.start ≤ n) && decide (n ≤ r.stop)

/-- Modelled from the spec: `RangeInclusiveExt::saturating_len` of the
`bp-runtime` crate (not part of the examined sources). Per the spec it is a
saturating inclusive-range length helper: an inverted range has length 0 and
the length `end - start + 1` saturates at `u64::MAX` instead of overflowing
(the spec fixes `(0 ..= u64::MAX).saturating_len() = u64::MAX`). -/
def RangeInclusive.saturating_len (r : RangeInclusive) : Nat :=
  if r.stop < r.start then 0 else min (r.stop - r.start + 1) U64_MAX

/-- Modelled from the spec: the `LaneState` enumeration of the `lane` module
(not part of the examined sources); the spec gives exactly the states
`Closed` and `Opened`, with `Closed` the default for a new lane. -/
inductive LaneState where
  | Closed
  | Opened
deriving DecidableEq, Repr

/-- `DeliveredMessages { begin, end }`: inclusive range of nonces delivered by
one relayer; the `end` field is named `stop` because `end` is a Lean
keyword. -/
structure DeliveredMessages where
  begin : Nat
  stop : Nat
deriving DecidableEq, Repr

/-- `DeliveredMessages::new(nonce)`: single-nonce range. -/
def DeliveredMessages.new (nonce : Nat) : DeliveredMessages :=
  ⟨nonce, nonce⟩

/-- `DeliveredMessages::total_messages`: `(self.begin..=self.end).saturating_len()`. -/
def DeliveredMessages.total_messages (d : DeliveredMessages) : Nat :=
  RangeInclusive.saturating_len ⟨d.begin, d.stop⟩

/-- `DeliveredMessages::contains_message(nonce)`: `(self.begin..=self.end).contains(&nonce)`. -/
def DeliveredMessages.contains_message (d : DeliveredMessages) (nonce : Nat) : Bool :=
  RangeInclusive.containsNonce ⟨d.begin, d.stop⟩ nonce

/-- `UnrewardedRelayer { relayer, messages }`: one queue entry of the inbound
lane, generic over the relayer-identity type. -/
structure UnrewardedRelayer (RelayerId : Type) where
  relayer : RelayerId
  messages : DeliveredMessages
deriving DecidableEq, Repr

/-- `InboundLaneData { relayers, last_confirmed_nonce, state }`; the
`VecDeque` of relayer entries is modelled as a list whose head is the front
(oldest entry) and whose last element is the back (newest entry). -/
structure InboundLaneData (RelayerId : Type) where
  relayers : List (UnrewardedRelayer RelayerId)
  last_confirmed_nonce : Nat
  state : LaneState
deriving DecidableEq, Repr

/-- `impl Default for InboundLaneData`: closed state, empty queue,
`last_confirmed_nonce = 0`. -/
def InboundLaneData.default (RelayerId : Type) : InboundLaneData RelayerId :=
  { relayers := [], last_confirmed_nonce := 0, state := LaneState.Closed }

/-- `InboundLaneData::opened()`: the default data with opened state. -/
def InboundLaneData.opened (RelayerId : Type) : InboundLaneData RelayerId :=
  { InboundLaneData.default RelayerId with state := LaneState.Opened }

/-- `MaxEncodedLen` for `MessageNonce = u64`: 8 bytes. -/
def MessageNonce_max_encoded_len : Nat := 8

/-- Derived `MaxEncodedLen` for `DeliveredMessages`: two `u64` fields. -/
def DeliveredMessages.max_encoded_len : Nat :=
  MessageNonce_max_encoded_len + MessageNonce_max_encoded_len

/-- Derived `MaxEncodedLen` for `UnrewardedRelayer<RelayerId>`: the maximal
encoded length of the relayer id (a parameter here) plus that of the embedded
`DeliveredMessages`. -/
def UnrewardedRelayer.max_encoded_len (relayerIdLen : Nat) : Nat :=
  relayerIdLen + DeliveredMessages.max_encoded_len

/-- `usize::checked_mul`: `none` on overflow past `USIZE_MAX`. -/
def checkedMulUsize (a b : Nat) : Option Nat :=
  if a * b ≤ USIZE_MAX then some (a * b) else none

/-- `usize::checked_add`: `none` on overflow past `USIZE_MAX`. -/
def checkedAddUsize (a b : Nat) : Option Nat :=
  if a + b ≤ USIZE_MAX then some (a + b) else none

/-- `InboundLaneData::encoded_size_hint(relayers_entries)`:
`relayers_entries.checked_mul(UnrewardedRelayer::max_encoded_len())?
 .checked_add(MessageNonce::max_encoded_len())`, with the relayer-id maximal
encoded length abstracted as `relayerIdLen`. -/
def InboundLaneData.encoded_size_hint (relayerIdLen relayers_entries : Nat) : Option Nat :=
  (checkedMulUsize relayers_entries (UnrewardedRelayer.max_encoded_len relayerIdLen)).bind
    (fun x => checkedAddUsize x MessageNonce_max_encoded_len)

/-- `InboundLaneData::encoded_size_hint_u32`: the hint chained with
`and_then(|x| u32::try_from(x).ok())` and `unwrap_or(u32::MAX)`. -/
def InboundLaneData.encoded_size_hint_u32 (relayerIdLen relayers_entries : Nat) : Nat :=
  ((InboundLaneData.encoded_size_hint relayerIdLen relayers_entries).bind
    (fun x => if x ≤ U32_MAX then some x else none)).getD U32_MAX

/-- `InboundLaneData::last_delivered_nonce`: the `end` of the back (newest)
queue entry, or `last_confirmed_nonce` for an empty queue. -/
def InboundLaneData.last_delivered_nonce {R : Type} (d : InboundLaneData R) : Nat :=
  match d.relayers.getLast? with
  | some entry => entry.messages.stop
  | none => d.last_confirmed_nonce

/-- `InboundLaneData::total_unrewarded_messages`: the saturating length of
`front.messages.begin ..= back.messages.end`, or 0 for an empty queue. -/
def InboundLaneData.total_unrewarded_messages {R : Type} (d : InboundLaneData R) : Nat :=
  match d.relayers.head?, d.relayers.getLast? with
  | some front, some back =>
      RangeInclusive.saturating_len ⟨front.messages.begin, back.messages.stop⟩
  | _, _ => 0

/-- `OutboundLaneData { oldest_unpruned_nonce, latest_received_nonce,
latest_generated_nonce, state }`. -/
structure OutboundLaneData where
  oldest_unpruned_nonce : Nat
  latest_received_nonce : Nat
  latest_generated_nonce : Nat
  state : LaneState
deriving DecidableEq, Repr

/-- `impl Default for OutboundLaneData`: closed state,
`oldest_unpruned_nonce = 1`, both latest nonces 0. -/
def OutboundLaneData.default : OutboundLaneData :=
  { oldest_unpruned_nonce := 1, latest_received_nonce := 0,
    latest_generated_nonce := 0, state := LaneState.Closed }

/-- `OutboundLaneData::opened()`: the default data with opened state. -/
def OutboundLaneData.opened : OutboundLaneData :=
  { OutboundLaneData.default with state := LaneState.Opened }

/-- `OutboundLaneData::queued_messages`:
`(self.latest_received_nonce + 1) ..= self.latest_generated_nonce`; the `+ 1`
is 64-bit addition, hence the explicit reduction modulo `2 ^ 64`. -/
def OutboundLaneData.queued_messages (d : OutboundLaneData) : RangeInclusive :=
  ⟨(d.latest_received_nonce + 1) % U64_MOD, d.latest_generated_nonce⟩

/-- `HARD_MESSAGE_SIZE_LIMIT`: hard limit on the size of a bridged message. -/
def HARD_MESSAGE_SIZE_LIMIT : Nat := 64 * 1024

/-- `maximal_incoming_message_size(max_extrinsic_size)`:
`min(max_extrinsic_size / 3 * 2, HARD_MESSAGE_SIZE_LIMIT)` — the source
divides by 3 first and then doubles (no `u32` overflow is possible in this
order). -/
def maximal_incoming_message_size (max_extrinsic_size : Nat) : Nat :=
  min (max_extrinsic_size / 3 * 2) HARD_MESSAGE_SIZE_LIMIT

/-- Modelled from the spec: `RelayersRewards<AccountId>` of the
`source_chain` module (not part of the examined sources) — per the spec, a
mapping from relayer identity to an accumulated nonce count, with entries
created on a relayer's first contribution. It is modelled as a key-sorted
association list, mirroring the ordered-map semantics of `BTreeMap`. -/
abbrev RelayersRewards (AccountId : Type) : Type :=
  List (AccountId × Nat)

/-- Lookup in a `RelayersRewards` map (`BTreeMap::get`). -/
def rewardsLookup {A : Type} [DecidableEq A] : RelayersRewards A → A → Option Nat
  | [], _ => none
  | (k, v) :: rest, a => if a = k then some v else rewardsLookup rest a

/-- `BTreeMap::entry(k).or_default() += v`: add `v` to the entry of `k`,
creating it (from the default 0) if absent, keeping keys sorted. -/
def rewardsAdd {A : Type} [LinearOrder A] : RelayersRewards A → A → Nat → RelayersRewards A
  | [], k, v => [(k, v)]
  | (k', v') :: rest, k, v =>
      if k < k' then (k, v) :: (k', v') :: rest
      else if k = k' then (k', v' + v) :: rest
      else (k', v') :: rewardsAdd rest k v

/-- Keys of a `RelayersRewards` map are strictly sorted (the `BTreeMap`
invariant). -/
def keysSorted {A : Type} [LinearOrder A] (m : RelayersRewards A) : Prop :=
  m.Pairwise (fun p q => p.1 < q.1)

/-- The loop body and loop of `calc_relayers_rewards`, with the accumulated
map made explicit: for each entry, `nonce_begin = max(entry.messages.begin,
range.start)` and `nonce_end = min(entry.messages.end, range.end)`; when
`nonce_end >= nonce_begin` the reward `nonce_end - nonce_begin + 1` is added
to the entry's relayer. The source computes the reward and the running total
with unchecked `u64` arithmetic; a result that would leave the 64-bit range
(a panic under debug assertions, a wrap otherwise) is modelled by `none`. -/
def calcRewardsGo {A : Type} [LinearOrder A] (received_range : RangeInclusive) :
    List (UnrewardedRelayer A) → RelayersRewards A → Option (RelayersRewards A)
  | [], m => some m
  | entry :: rest, m =>
      let nonce_begin := max entry.messages.begin received_range.start
      let nonce_end := min entry.messages.stop received_range.stop
      if nonce_begin ≤ nonce_end then
        if nonce_end - nonce_begin + 1 ≤ U64_MAX then
          if (rewardsLookup m entry.relayer).getD 0 + (nonce_end - nonce_begin + 1) ≤ U64_MAX
          then
            calcRewardsGo received_range rest
              (rewardsAdd m entry.relayer (nonce_end - nonce_begin + 1))
          else none
        else none
      else calcRewardsGo received_range rest m

/-- `calc_relayers_rewards(messages_relayers, received_range)`: fold the loop
over the queue starting from the empty map. -/
def calc_relayers_rewards {A : Type} [LinearOrder A]
    (messages_relayers : List (UnrewardedRelayer A)) (received_range : RangeInclusive) :
    Option (RelayersRewards A) :=
  calcRewardsGo received_range messages_relayers []

/-- Length of the intersection of a delivered range with the received range,
in exact arithmetic: `0` when the ranges do not overlap. -/
def intersectionLen (msgs : DeliveredMessages) (r : RangeInclusive) : Nat :=
  if max msgs.begin r.start ≤ min msgs.stop r.stop then
    min msgs.stop r.stop - max msgs.begin r.start + 1
  else 0

/-- Sum, over the queue entries naming relayer `a`, of the exact intersection
lengths with the received range: the reward the spec ascribes to `a`. -/
def relayerTotal {A : Type} [DecidableEq A] (r : RangeInclusive) (a : A) :
    List (UnrewardedRelayer A) → Nat
  | [] => 0
  | entry :: rest =>
      (if entry.relayer = a then intersectionLen entry.messages r else 0) +
        relayerTotal r a rest

/-- Sum over all queue entries of the exact intersection lengths with the
received range. -/
def totalIntersection {A : Type} (r : RangeInclusive) :
    List (UnrewardedRelayer A) → Nat
  | [] => 0
  | entry :: rest => intersectionLen entry.messages r + totalIntersection r rest

/-! Helper lemmas about the rewards map and the reward fold. -/

lemma rewardsLookup_cons {A : Type} [DecidableEq A] (k : A) (v : Nat)
    (rest : RelayersRewards A) (a : A) :
    rewardsLookup ((k, v) :: rest) a = if a = k then some v else rewardsLookup rest a := rfl

lemma rewardsAdd_nil {A : Type} [LinearOrder A] (k : A) (v : Nat) :
    rewardsAdd ([] : RelayersRewards A) k v = [(k, v)] := rfl

lemma rewardsAdd_cons {A : Type} [LinearOrder A] (k' : A) (v' : Nat)
    (rest : RelayersRewards A) (k : A) (v : Nat) :
    rewardsAdd ((k', v') :: rest) k v =
      if k < k' then (k, v) :: (k', v') :: rest
      else if k = k' then (k', v' + v) :: rest
      else (k', v') :: rewardsAdd rest k v := rfl

lemma rewardsLookup_eq_none {A : Type} [DecidableEq A] :
    ∀ (m : RelayersRewards A) (a : A), (∀ q ∈ m, a ≠ q.1) → rewardsLookup m a = none
  | [], _, _ => rfl
  | (k, v) :: rest, a, h => by
      rw [rewardsLookup_cons, if_neg (h (k, v) (List.mem_cons_self _ _)),
        rewardsLookup_eq_none rest a (fun q hq => h q (List.mem_cons_of_mem _ hq))]

lemma mem_rewardsAdd {A : Type} [LinearOrder A] :
    ∀ (m : RelayersRewards A) (k : A) (v : Nat) (p : A × Nat), p ∈ rewardsAdd m k v →
      p.1 = k ∨ ∃ q ∈ m, p.1 = q.1
  | [], k, v, p, hp => by
      rw [rewardsAdd_nil, List.mem_singleton] at hp
      subst hp
      exact Or.inl rfl
  | (k', v') :: rest, k, v, p, hp => by
      rw [rewardsAdd_cons] at hp
      by_cases h1 : k < k'
      · rw [if_pos h1] at hp
        rcases List.mem_cons.mp hp with hp | hp
        · subst hp; exact Or.inl rfl
        · rcases List.mem_cons.mp hp with hp | hp
          · exact Or.inr ⟨(k', v'), List.mem_cons_self _ _, by rw [hp]⟩
          · exact Or.inr ⟨p, List.mem_cons_of_mem _ hp, rfl⟩
      · rw [if_neg h1] at hp
        by_cases h2 : k = k'
        · rw [if_pos h2] at hp
          rcases List.mem_cons.mp hp with hp | hp
          · exact Or.inr ⟨(k', v'), List.mem_cons_self _ _, by rw [hp]⟩
          · exact Or.inr ⟨p, List.mem_cons_of_mem _ hp, rfl⟩
        · rw [if_neg h2] at hp
          rcases List.mem_cons.mp hp with hp | hp
          · exact Or.inr ⟨(k', v'), List.mem_cons_self _ _, by rw [hp]⟩
          · rcases mem_rewardsAdd rest k v p hp with h | ⟨q, hq, hpq⟩
            · exact Or.inl h
            · exact Or.inr ⟨q, List.mem_cons_of_mem _ hq, hpq⟩

lemma keysSorted_nil {A : Type} [LinearOrder A] : keysSorted ([] : RelayersRewards A) :=
  List.Pairwise.nil

lemma keysSorted_rewardsAdd {A : Type} [LinearOrder A] :
    ∀ (m : RelayersRewards A), keysSorted m → ∀ (k : A) (v : Nat),
      keysSorted (rewardsAdd m k v)
  | [], _, k, v => by
      rw [rewardsAdd_nil]
      exact List.pairwise_singleton _ _
  | (k', v') :: rest, hm, k, v => by
      rw [keysSorted, List.pairwise_cons] at hm
      obtain ⟨hlt, hrest⟩ := hm
      rw [rewardsAdd_cons]
      by_cases h1 : k < k'
      · rw [if_pos h1, keysSorted, List.pairwise_cons]
        refine ⟨?_, List.pairwise_cons.mpr ⟨hlt, hrest⟩⟩
        intro p hp
        rcases List.mem_cons.mp hp with hp | hp
        · rw [hp]; exact h1
        · exact lt_trans h1 (hlt p hp)
      · rw [if_neg h1]
        by_cases h2 : k = k'
        · rw [if_pos h2, keysSorted, List.pairwise_cons]
          exact ⟨hlt, hrest⟩
        · rw [if_neg h2, keysSorted, List.pairwise_cons]
          refine ⟨?_, keysSorted_rewardsAdd rest hrest k v⟩
          intro p hp
          rcases mem_rewardsAdd rest k v p hp with h | ⟨q, hq, hpq⟩
          · rw [h]
            exact lt_of_le_of_ne (not_lt.mp h1) (Ne.symm h2)
          · rw [hpq]
            exact hlt q hq

lemma rewardsLookup_rewardsAdd {A : Type} [LinearOrder A] :
    ∀ (m : RelayersRewards A), keysSorted m → ∀ (k : A) (v : Nat) (a : A),
      rewardsLookup (rewardsAdd m k v) a =
        if a = k then some ((rewardsLookup m k).getD 0 + v) else rewardsLookup m a
  | [], _, k, v, a => by
      rw [rewardsAdd_nil, rewardsLookup_cons]
      by_cases h : a = k
      · rw [if_pos h, if_pos h]
        simp [rewardsLookup]
      · rw [if_neg h, if_neg h]
  | (k', v') :: rest, hm, k, v, a => by
      rw [keysSorted, List.pairwise_cons] at hm
      obtain ⟨hlt, hrest⟩ := hm
      rw [rewardsAdd_cons]
      by_cases h1 : k < k'
      · rw [if_pos h1]
        have hknone : rewardsLookup ((k', v') :: rest) k = none := by
          apply rewardsLookup_eq_none
          intro q hq
          rcases List.mem_cons.mp hq with hq | hq
          · rw [hq]; exact ne_of_lt h1
          · exact ne_of_lt (lt_trans h1 (hlt q hq))
        rw [rewardsLookup_cons, hknone]
        by_cases h : a = k
        · rw [if_pos h, if_pos h]
          simp
        · rw [if_neg h, if_neg h]
      · rw [if_neg h1]
        by_cases h2 : k = k'
        · subst h2
          rw [if_pos rfl]
          simp only [rewardsLookup_cons]
          by_cases h : a = k
          · simp [h]
          · simp [h]
        · rw [if_neg h2]
          simp only [rewardsLookup_cons]
          rw [rewardsLookup_rewardsAdd rest hrest k v a]
          by_cases hak' : a = k'
          · have hak : ¬ a = k := fun hc => h2 (hc.symm.trans hak')
            rw [if_pos hak', if_neg hak, if_pos hak']
          · rw [if_neg hak']
            by_cases hak : a = k
            · rw [if_pos hak, if_pos hak, if_neg h2]
            · rw [if_neg hak, if_neg hak, if_neg hak']

lemma relayerTotal_cons {A : Type} [DecidableEq A] (r : RangeInclusive) (a : A)
    (entry : UnrewardedRelayer A) (rest : List (UnrewardedRelayer A)) :
    relayerTotal r a (entry :: rest) =
      (if entry.relayer = a then intersectionLen entry.messages r else 0) +
        relayerTotal r a rest := rfl

lemma totalIntersection_cons {A : Type} (r : RangeInclusive)
    (entry : UnrewardedRelayer A) (rest : List (UnrewardedRelayer A)) :
    totalIntersection r (entry :: rest) =
      intersectionLen entry.messages r + totalIntersection r rest := rfl

lemma relayerTotal_le_totalIntersection {A : Type} [DecidableEq A] (r : RangeInclusive)
    (a : A) : ∀ queue : List (UnrewardedRelayer A),
      relayerTotal r a queue ≤ totalIntersection r queue
  | [] => Nat.le_refl 0
  | entry :: rest => by
      rw [relayerTotal_cons, totalIntersection_cons]
      have ih := relayerTotal_le_totalIntersection r a rest
      by_cases h : entry.relayer = a
      · rw [if_pos h]; omega
      · rw [if_neg h]; omega

lemma calcRewardsGo_nil {A : Type} [LinearOrder A] (r : RangeInclusive)
    (m : RelayersRewards A) : calcRewardsGo r [] m = some m := rfl

lemma calcRewardsGo_cons {A : Type} [LinearOrder A] (r : RangeInclusive)
    (entry : UnrewardedRelayer A) (rest : List (UnrewardedRelayer A))
    (m : RelayersRewards A) :
    calcRewardsGo r (entry :: rest) m =
      if max entry.messages.begin r.start ≤ min entry.messages.stop r.stop then
        if min entry.messages.stop r.stop - max entry.messages.begin r.start + 1 ≤ U64_MAX
        then
          if (rewardsLookup m entry.relayer).getD 0 +
              (min entry.messages.stop r.stop - max entry.messages.begin r.start + 1) ≤
              U64_MAX then
            calcRewardsGo r rest (rewardsAdd m entry.relayer
              (min entry.messages.stop r.stop - max entry.messages.begin r.start + 1))
          else none
        else none
      else calcRewardsGo r rest m := rfl

/-- Invariant of the reward loop: starting from a sorted accumulator whose
entries leave room for the remaining exact per-relayer totals, the loop
succeeds (no 64-bit overflow) and adds exactly the per-relayer intersection
totals, creating an entry only for relayers with a non-empty contribution. -/
lemma calcRewardsGo_spec {A : Type} [LinearOrder A] (r : RangeInclusive) :
    ∀ (queue : List (UnrewardedRelayer A)) (m : RelayersRewards A),
      keysSorted m →
      (∀ a, (rewardsLookup m a).getD 0 + relayerTotal r a queue ≤ U64_MAX) →
      ∃ m', calcRewardsGo r queue m = some m' ∧ keysSorted m' ∧
        (∀ a, (rewardsLookup m' a).getD 0 =
          (rewardsLookup m a).getD 0 + relayerTotal r a queue) ∧
        (∀ a, rewardsLookup m' a = none ↔
          rewardsLookup m a = none ∧ relayerTotal r a queue = 0)
  | [], m, hm, _ =>
      ⟨m, rfl, hm, fun a => by rw [relayerTotal]; omega,
        fun a => by rw [relayerTotal]; simp⟩
  | entry :: rest, m, hm, hbound => by
      by_cases h : max entry.messages.begin r.start ≤ min entry.messages.stop r.stop
      · have hρ : intersectionLen entry.messages r =
            min entry.messages.stop r.stop - max entry.messages.begin r.start + 1 := by
          rw [intersectionLen, if_pos h]
        have hρpos : 1 ≤ intersectionLen entry.messages r := by rw [hρ]; omega
        have hkbound := hbound entry.relayer
        rw [relayerTotal_cons, if_pos rfl] at hkbound
        have h1 : min entry.messages.stop r.stop - max entry.messages.begin r.start + 1 ≤
            U64_MAX := by rw [hρ] at hkbound; omega
        have h2 : (rewardsLookup m entry.relayer).getD 0 +
            (min entry.messages.stop r.stop - max entry.messages.begin r.start + 1) ≤
            U64_MAX := by rw [hρ] at hkbound; omega
        rw [calcRewardsGo_cons, if_pos h, if_pos h1, if_pos h2]
        obtain ⟨m', hgo, hm', hgetD, hnone⟩ :=
          calcRewardsGo_spec r rest
            (rewardsAdd m entry.relayer
              (min entry.messages.stop r.stop - max entry.messages.begin r.start + 1))
            (keysSorted_rewardsAdd m hm _ _)
            (by
              intro a
              rw [rewardsLookup_rewardsAdd m hm]
              by_cases ha : a = entry.relayer
              · subst ha
                rw [if_pos rfl, Option.getD_some]
                rw [hρ] at hkbound
                omega
              · rw [if_neg ha]
                have hba := hbound a
                rw [relayerTotal_cons, if_neg (fun hc => ha hc.symm)] at hba
                omega)
        refine ⟨m', hgo, hm', ?_, ?_⟩
        · intro a
          rw [hgetD a, rewardsLookup_rewardsAdd m hm, relayerTotal_cons]
          by_cases ha : a = entry.relayer
          · subst ha
            rw [if_pos rfl, if_pos rfl, Option.getD_some, hρ]
            omega
          · rw [if_neg ha, if_neg (fun hc => ha hc.symm)]
            omega
        · intro a
          rw [hnone a, rewardsLookup_rewardsAdd m hm, relayerTotal_cons]
          by_cases ha : a = entry.relayer
          · subst ha
            rw [if_pos rfl, if_pos rfl]
            constructor
            · intro hc
              exact absurd hc.1 (by simp)
            · intro hc
              exact absurd hc.2 (by omega)
          · rw [if_neg ha, if_neg (fun hc => ha hc.symm), Nat.zero_add]
      · have hρ0 : intersectionLen entry.messages r = 0 := by
          rw [intersectionLen, if_neg h]
        have hrt : ∀ a, relayerTotal r a (entry :: rest) = relayerTotal r a rest := by
          intro a
          rw [relayerTotal_cons, hρ0, ite_self, Nat.zero_add]
        rw [calcRewardsGo_cons, if_neg h]
        obtain ⟨m', hgo, hm', hgetD, hnone⟩ :=
          calcRewardsGo_spec r rest m hm (fun a => by rw [← hrt a]; exact hbound a)
        refine ⟨m', hgo, hm', ?_, ?_⟩
        · intro a
          rw [hrt a]
          exact hgetD a
        · intro a
          rw [hrt a]
          exact hnone a

lemma U64_MOD_eq : U64_MOD = 18446744073709551616 := by
  rw [U64_MOD]
  norm_num

lemma U64_MAX_eq : U64_MAX = 18446744073709551615 := by
  rw [U64_MAX, U64_MOD_eq]

lemma saturating_len_le (r : RangeInclusive) : r.saturating_len ≤ U64_MAX := by
  rw [RangeInclusive.saturating_len]
  split
  · exact Nat.zero_le _
  · exact Nat.min_le_right _ _

lemma encoded_size_hint_eq (relayerIdLen n : Nat) :
    InboundLaneData.encoded_size_hint relayerIdLen n =
      if n * UnrewardedRelayer.max_encoded_len relayerIdLen ≤ USIZE_MAX then
        if n * UnrewardedRelayer.max_encoded_len relayerIdLen +
            MessageNonce_max_encoded_len ≤ USIZE_MAX then
          some (n * UnrewardedRelayer.max_encoded_len relayerIdLen +
            MessageNonce_max_encoded_len)
        else none
      else none := by
  rw [InboundLaneData.encoded_size_hint, checkedMulUsize]
  by_cases hm : n * UnrewardedRelayer.max_encoded_len relayerIdLen ≤ USIZE_MAX
  · rw [if_pos hm, if_pos hm, Option.some_bind, checkedAddUsize]
  · rw [if_neg hm, if_neg hm, Option.none_bind]

/-! Claim theorems. -/

/-- C1: for every relayer queue and confirmed inclusive range,
`calc_relayers_rewards` maps each relayer to the sum, over that relayer's
queue entries, of `intersection.end - intersection.begin + 1` for the
non-empty intersections of the entry's delivered range with the confirmed
range; a relayer has an entry in the result exactly when some of its queue
entries overlaps the confirmed range (entries created on first
contribution), and non-overlapping entries contribute nothing. The bound on
the total intersected count keeps the `u64` accumulation exact. -/
theorem calc_relayers_rewards_correct {A : Type} [LinearOrder A]
    (queue : List (UnrewardedRelayer A)) (r : RangeInclusive)
    (hbound : totalIntersection r queue ≤ U64_MAX) :
    ∃ m, calc_relayers_rewards queue r = some m ∧
      (∀ a, (rewardsLookup m a).getD 0 = relayerTotal r a queue) ∧
      (∀ a, rewardsLookup m a = none ↔ relayerTotal r a queue = 0) := by
  obtain ⟨m', hgo, _, hgetD, hnone⟩ :=
    calcRewardsGo_spec r queue [] keysSorted_nil
      (fun a => by
        have := relayerTotal_le_totalIntersection r a queue
        simp only [rewardsLookup, Option.getD_none, Nat.zero_add]
        omega)
  refine ⟨m', hgo, ?_, ?_⟩
  · intro a
    have := hgetD a
    simp only [rewardsLookup, Option.getD_none, Nat.zero_add] at this
    exact this
  · intro a
    have := hnone a
    simp only [rewardsLookup, true_and] at this
    exact this

/-- C1 witness: queue `[(A = 0, 0..=10), (B = 1, 11..=20)]` with confirmed
range `5..=15` stays within the `u64` bound and yields the map
`A => 6, B => 5`. -/
theorem calc_relayers_rewards_correct_witness :
    totalIntersection (⟨5, 15⟩ : RangeInclusive)
      [⟨(0 : Nat), ⟨0, 10⟩⟩, ⟨1, ⟨11, 20⟩⟩] ≤ U64_MAX ∧
    calc_relayers_rewards [⟨(0 : Nat), ⟨0, 10⟩⟩, ⟨1, ⟨11, 20⟩⟩]
      (⟨5, 15⟩ : RangeInclusive) = some [(0, 6), (1, 5)] ∧
    (∃ m, calc_relayers_rewards [⟨(0 : Nat), ⟨0, 10⟩⟩, ⟨1, ⟨11, 20⟩⟩]
        (⟨5, 15⟩ : RangeInclusive) = some m ∧
      (∀ a, (rewardsLookup m a).getD 0 =
        relayerTotal (⟨5, 15⟩ : RangeInclusive) a
          [⟨(0 : Nat), ⟨0, 10⟩⟩, ⟨1, ⟨11, 20⟩⟩]) ∧
      (∀ a, rewardsLookup m a = none ↔
        relayerTotal (⟨5, 15⟩ : RangeInclusive) a
          [⟨(0 : Nat), ⟨0, 10⟩⟩, ⟨1, ⟨11, 20⟩⟩] = 0)) :=
  ⟨by decide, by decide, calc_relayers_rewards_correct _ _ (by decide)⟩

/-- C2 counterexample: with the single queue entry `(A = 0, 0..=u64::MAX)`
and confirmed range `0..=u64::MAX`, the intersection is the full 64-bit
space; its exact count is `u64::MAX + 1 = 2^64`, so the unchecked
`nonce_end - nonce_begin + 1` leaves the `u64` range (a panic under debug
assertions, a silent wrap to 0 otherwise), refuting the claim that no input
panics or wraps. -/
theorem calc_relayers_rewards_overflow_counterexample :
    calc_relayers_rewards [⟨(0 : Nat), ⟨0, U64_MAX⟩⟩]
      (⟨0, U64_MAX⟩ : RangeInclusive) = none ∧
    totalIntersection (⟨0, U64_MAX⟩ : RangeInclusive)
      [⟨(0 : Nat), ⟨0, U64_MAX⟩⟩] = U64_MAX + 1 :=
  ⟨by decide, by decide⟩

/-- C2 amended: the intersection is computed with `max`/`min` and empty
intersections are skipped before the subtraction, so the subtraction never
underflows; and whenever the total intersected message count fits in `u64`
(in particular for every queue obeying the lane invariants, whose nonces
start at 1), no arithmetic in the reward computation panics or wraps. Only
an adversarial intersection of `2 ^ 64` nonces (`0..=u64::MAX`) overflows
the unchecked `+ 1`. -/
theorem calc_relayers_rewards_no_panic {A : Type} [LinearOrder A]
    (queue : List (UnrewardedRelayer A)) (r : RangeInclusive)
    (hbound : totalIntersection r queue ≤ U64_MAX) :
    (calc_relayers_rewards queue r).isSome := by
  obtain ⟨m', hgo, _⟩ :=
    calcRewardsGo_spec r queue [] keysSorted_nil
      (fun a => by
        have := relayerTotal_le_totalIntersection r a queue
        simp only [rewardsLookup, Option.getD_none, Nat.zero_add]
        omega)
  rw [calc_relayers_rewards, hgo]
  rfl

/-- C2 amended witness: the queue `[(7, 1..=5)]` with confirmed range
`2..=9` is within the bound and the computation succeeds. -/
theorem calc_relayers_rewards_no_panic_witness :
    totalIntersection (⟨2, 9⟩ : RangeInclusive) [⟨(7 : Nat), ⟨1, 5⟩⟩] ≤ U64_MAX ∧
    (calc_relayers_rewards [⟨(7 : Nat), ⟨1, 5⟩⟩] (⟨2, 9⟩ : RangeInclusive)).isSome :=
  ⟨by decide, calc_relayers_rewards_no_panic _ _ (by decide)⟩

/-- C3 counterexample: at `max_extrinsic_size = 5` the code returns
`5 / 3 * 2 = 2`, while `min(5 * 2 / 3, HARD_LIMIT) = 3`: the source divides
by 3 before doubling, the claim doubles before dividing. -/
theorem maximal_incoming_message_size_counterexample :
    maximal_incoming_message_size 5 ≠ min (5 * 2 / 3) HARD_MESSAGE_SIZE_LIMIT :=
  by decide

/-- C3 amended: `maximal_incoming_message_size(s) = min(s / 3 * 2,
HARD_LIMIT)` with `HARD_LIMIT = 65536` — the division happens before the
doubling, so the result is at most `min(s * 2 / 3, HARD_LIMIT)` and smaller
by at most 1 (exactly when `s % 3 = 2` and the two-thirds rule dominates);
the spec's own examples `1_000_000 => 65536` and `9000 => 6000` hold. -/
theorem maximal_incoming_message_size_correct (s : Nat) :
    maximal_incoming_message_size s = min (s / 3 * 2) HARD_MESSAGE_SIZE_LIMIT ∧
    maximal_incoming_message_size s ≤ min (s * 2 / 3) HARD_MESSAGE_SIZE_LIMIT ∧
    min (s * 2 / 3) HARD_MESSAGE_SIZE_LIMIT ≤ maximal_incoming_message_size s + 1 ∧
    maximal_incoming_message_size 1000000 = 65536 ∧
    maximal_incoming_message_size 9000 = 6000 := by
  refine ⟨rfl, ?_, ?_, by decide, by decide⟩
  · simp only [maximal_incoming_message_size, HARD_MESSAGE_SIZE_LIMIT, Nat.min_def]
    split_ifs <;> omega
  · simp only [maximal_incoming_message_size, HARD_MESSAGE_SIZE_LIMIT, Nat.min_def]
    split_ifs <;> omega

/-- C4: `total_unrewarded_messages` never panics or wraps: for every inbound
lane record the reported total is a valid `u64` (the length saturates); the
queue `[(relayer 1, 0..=0), (relayer 2, 0..=u64::MAX)]` yields `u64::MAX`
rather than a wrapped value, and an empty queue yields 0. -/
theorem total_unrewarded_messages_saturates :
    (∀ (R : Type) (d : InboundLaneData R), d.total_unrewarded_messages ≤ U64_MAX) ∧
    (InboundLaneData.mk [⟨(1 : Nat), ⟨0, 0⟩⟩, ⟨2, ⟨0, U64_MAX⟩⟩] 0
        LaneState.Opened).total_unrewarded_messages = U64_MAX ∧
    (∀ (R : Type) (lcn : Nat) (st : LaneState),
      (InboundLaneData.mk ([] : List (UnrewardedRelayer R))
        lcn st).total_unrewarded_messages = 0) := by
  refine ⟨?_, by decide, fun _ _ _ => rfl⟩
  intro R d
  cases h1 : d.relayers.head? with
  | none => simp [InboundLaneData.total_unrewarded_messages, h1]
  | some front =>
      cases h2 : d.relayers.getLast? with
      | none => simp [InboundLaneData.total_unrewarded_messages, h1, h2]
      | some back =>
          simp [InboundLaneData.total_unrewarded_messages, h1, h2, saturating_len_le]

/-- C5: for every outbound lane record whose `latest_received_nonce` is below
`u64::MAX` (so the 64-bit `+ 1` is exact), `queued_messages()` is the
inclusive range `(latest_received_nonce + 1) ..= latest_generated_nonce`. -/
theorem queued_messages_correct (d : OutboundLaneData)
    (h : d.latest_received_nonce < U64_MAX) :
    d.queued_messages =
      ⟨d.latest_received_nonce + 1, d.latest_generated_nonce⟩ := by
  rw [OutboundLaneData.queued_messages]
  congr 1
  apply Nat.mod_eq_of_lt
  rw [U64_MAX_eq] at h
  rw [U64_MOD_eq]
  omega

/-- C5 witness: with `latest_received_nonce = 5` and
`latest_generated_nonce = 10` the queued range is `6..=10`. -/
theorem queued_messages_correct_witness :
    (OutboundLaneData.mk 1 5 10 LaneState.Closed).latest_received_nonce < U64_MAX ∧
    (OutboundLaneData.mk 1 5 10 LaneState.Closed).queued_messages = ⟨6, 10⟩ :=
  ⟨by decide, queued_messages_correct (OutboundLaneData.mk 1 5 10 LaneState.Closed)
    (by decide)⟩

/-- C6: `last_delivered_nonce()` is `last_confirmed_nonce` when the relayers
queue is empty, and the `end` nonce of the last (newest) queue entry when the
queue is non-empty. -/
theorem last_delivered_nonce_correct (R : Type) (d : InboundLaneData R) :
    (d.relayers = [] → d.last_delivered_nonce = d.last_confirmed_nonce) ∧
    (∀ entry, d.relayers.getLast? = some entry →
      d.last_delivered_nonce = entry.messages.stop) := by
  constructor
  · intro h
    simp [InboundLaneData.last_delivered_nonce, h]
  · intro entry h
    simp [InboundLaneData.last_delivered_nonce, h]

/-- C6 witness: an empty queue with `last_confirmed_nonce = 42` reports 42;
the one-entry queue `[(7, 1..=9)]` reports 9. -/
theorem last_delivered_nonce_correct_witness :
    (InboundLaneData.mk ([] : List (UnrewardedRelayer Nat)) 42
      LaneState.Opened).last_delivered_nonce = 42 ∧
    (InboundLaneData.mk [⟨(7 : Nat), ⟨1, 9⟩⟩] 0
      LaneState.Opened).last_delivered_nonce = 9 :=
  ⟨(last_delivered_nonce_correct Nat _).1 rfl,
   (last_delivered_nonce_correct Nat _).2 ⟨7, ⟨1, 9⟩⟩ (by decide)⟩

/-- C7: `contains_message(n)` is true exactly when `begin ≤ n ≤ end`, and for
the range `100..=150` the nonces 99, 100, 150, 151 give false, true, true,
false. -/
theorem contains_message_correct :
    (∀ (d : DeliveredMessages) (n : Nat),
      d.contains_message n = true ↔ d.begin ≤ n ∧ n ≤ d.stop) ∧
    DeliveredMessages.contains_message ⟨100, 150⟩ 99 = false ∧
    DeliveredMessages.contains_message ⟨100, 150⟩ 100 = true ∧
    DeliveredMessages.contains_message ⟨100, 150⟩ 150 = true ∧
    DeliveredMessages.contains_message ⟨100, 150⟩ 151 = false := by
  refine ⟨?_, by decide, by decide, by decide, by decide⟩
  intro d n
  rw [DeliveredMessages.contains_message, RangeInclusive.containsNonce]
  simp

/-- C8: the default-constructed lane records of both directions are Closed;
the default outbound record has `oldest_unpruned_nonce = 1` and both latest
nonces 0, and the default inbound record has an empty relayers queue and
`last_confirmed_nonce = 0`. -/
theorem default_lane_records :
    OutboundLaneData.default.state = LaneState.Closed ∧
    OutboundLaneData.default.oldest_unpruned_nonce = 1 ∧
    OutboundLaneData.default.latest_received_nonce = 0 ∧
    OutboundLaneData.default.latest_generated_nonce = 0 ∧
    ∀ (R : Type), (InboundLaneData.default R).state = LaneState.Closed ∧
      (InboundLaneData.default R).relayers = [] ∧
      (InboundLaneData.default R).last_confirmed_nonce = 0 :=
  ⟨rfl, rfl, rfl, rfl, fun _ => ⟨rfl, rfl, rfl⟩⟩

/-- C9 counterexample: `DeliveredMessages { begin: 0, end: u64::MAX }` has
`begin ≤ end`, but `total_messages()` is not `end - begin + 1` (which is
`2 ^ 64`): the saturating length caps it at `u64::MAX`. -/
theorem total_messages_counterexample :
    (DeliveredMessages.mk 0 U64_MAX).begin ≤ (DeliveredMessages.mk 0 U64_MAX).stop ∧
    (DeliveredMessages.mk 0 U64_MAX).total_messages ≠
      (DeliveredMessages.mk 0 U64_MAX).stop - (DeliveredMessages.mk 0 U64_MAX).begin + 1 :=
  ⟨by decide, by decide⟩

/-- C9 amended: `total_messages()` never panics or wraps (its result is
always a valid `u64`); for `begin ≤ end` it is `min(end - begin + 1,
u64::MAX)`, hence exactly `end - begin + 1` whenever that count fits in
`u64` (which holds for every range except `0..=u64::MAX`, and for every
valid lane range since nonce 0 is never assigned). -/
theorem total_messages_correct (d : DeliveredMessages) :
    d.total_messages ≤ U64_MAX ∧
    (d.begin ≤ d.stop → d.total_messages = min (d.stop - d.begin + 1) U64_MAX) ∧
    (d.begin ≤ d.stop → d.stop - d.begin + 1 ≤ U64_MAX →
      d.total_messages = d.stop - d.begin + 1) := by
  refine ⟨saturating_len_le _, ?_, ?_⟩
  · intro h
    rw [DeliveredMessages.total_messages, RangeInclusive.saturating_len,
      if_neg (not_lt.mpr h)]
  · intro h h2
    rw [DeliveredMessages.total_messages, RangeInclusive.saturating_len,
      if_neg (not_lt.mpr h)]
    exact min_eq_left h2

/-- C9 amended witness: the range `100..=150` fits in `u64` and
`total_messages()` is exactly `150 - 100 + 1 = 51`. -/
theorem total_messages_correct_witness :
    (DeliveredMessages.mk 100 150).begin ≤ (DeliveredMessages.mk 100 150).stop ∧
    (DeliveredMessages.mk 100 150).stop - (DeliveredMessages.mk 100 150).begin + 1 ≤
      U64_MAX ∧
    (DeliveredMessages.mk 100 150).total_messages = 51 := by
  refine ⟨by decide, by decide, ?_⟩
  have := (total_messages_correct (DeliveredMessages.mk 100 150)).2.2
    (by decide) (by decide)
  simpa using this

/-- C10: `encoded_size_hint(n)` is
`some (n * UnrewardedRelayer::max_encoded_len() + MessageNonce::max_encoded_len())`
and is `none` exactly when the checked multiplication or the checked addition
overflows `usize`; `encoded_size_hint_u32` returns the same value when it
fits in `u32` and `u32::MAX` whenever the hint is `none` or too large. -/
theorem encoded_size_hint_correct (relayerIdLen n : Nat) :
    InboundLaneData.encoded_size_hint relayerIdLen n =
      (if n * UnrewardedRelayer.max_encoded_len relayerIdLen +
          MessageNonce_max_encoded_len ≤ USIZE_MAX
       then some (n * UnrewardedRelayer.max_encoded_len relayerIdLen +
          MessageNonce_max_encoded_len)
       else none) ∧
    (InboundLaneData.encoded_size_hint relayerIdLen n = none ↔
      ¬ n * UnrewardedRelayer.max_encoded_len relayerIdLen ≤ USIZE_MAX ∨
      ¬ n * UnrewardedRelayer.max_encoded_len relayerIdLen +
          MessageNonce_max_encoded_len ≤ USIZE_MAX) ∧
    InboundLaneData.encoded_size_hint_u32 relayerIdLen n =
      (if n * UnrewardedRelayer.max_encoded_len relayerIdLen +
          MessageNonce_max_encoded_len ≤ U32_MAX
       then n * UnrewardedRelayer.max_encoded_len relayerIdLen +
          MessageNonce_max_encoded_len
       else U32_MAX) := by
  have h32 : U32_MAX ≤ USIZE_MAX := by
    rw [U32_MAX, USIZE_MAX, U64_MAX, U64_MOD]
    norm_num
  by_cases hm : n * UnrewardedRelayer.max_encoded_len relayerIdLen ≤ USIZE_MAX
  · by_cases ha : n * UnrewardedRelayer.max_encoded_len relayerIdLen +
        MessageNonce_max_encoded_len ≤ USIZE_MAX
    · refine ⟨?_, ?_, ?_⟩
      · rw [encoded_size_hint_eq, if_pos hm, if_pos ha]
      · rw [encoded_size_hint_eq, if_pos hm, if_pos ha]
        simp [hm, ha]
      · rw [InboundLaneData.encoded_size_hint_u32, encoded_size_hint_eq,
          if_pos hm, if_pos ha, Option.some_bind]
        by_cases hu : n * UnrewardedRelayer.max_encoded_len relayerIdLen +
            MessageNonce_max_encoded_len ≤ U32_MAX
        · rw [if_pos hu, if_pos hu, Option.getD_some]
        · rw [if_neg hu, if_neg hu, Option.getD_none]
    · have hu : ¬ n * UnrewardedRelayer.max_encoded_len relayerIdLen +
          MessageNonce_max_encoded_len ≤ U32_MAX :=
        fun hc => ha (le_trans hc h32)
      refine ⟨?_, ?_, ?_⟩
      · rw [encoded_size_hint_eq, if_pos hm, if_neg ha]
      · rw [encoded_size_hint_eq, if_pos hm, if_neg ha]
        simp [ha]
      · rw [InboundLaneData.encoded_size_hint_u32, encoded_size_hint_eq,
          if_pos hm, if_neg ha, Option.none_bind, Option.getD_none, if_neg hu]
  · have ha : ¬ n * UnrewardedRelayer.max_encoded_len relayerIdLen +
        MessageNonce_max_encoded_len ≤ USIZE_MAX :=
      fun hc => hm (le_trans (Nat.le_add_right _ _) hc)
    have hu : ¬ n * UnrewardedRelayer.max_encoded_len relayerIdLen +
        MessageNonce_max_encoded_len ≤ U32_MAX :=
      fun hc => ha (le_trans hc h32)
    refine ⟨?_, ?_, ?_⟩
    · rw [encoded_size_hint_eq, if_neg hm, if_neg ha]
    · rw [encoded_size_hint_eq, if_neg hm]
      simp [hm]
    · rw [InboundLaneData.encoded_size_hint_u32, encoded_size_hint_eq,
        if_neg hm, Option.none_bind, Option.getD_none, if_neg hu]

end BpMessages
